import Mathlib

/-!
Shallow embedding of the wasi-common capability-enforcing syscall layer.

The definitions below are direct transcriptions of the Rust sources:
`src/fdentry.rs` (descriptor data model), `src/hostcalls/fs.rs` (the
guest-facing file-system hostcalls), `src/sys/unix/hostcalls_impl/fs.rs`
and `src/sys/windows/hostcalls_impl/fs.rs` (OS-level bodies), and
`src/hostcalls_impl/misc.rs` with `src/sys/unix/hostcalls_impl/misc.rs`
(the poll/clock subsystem).  Machine integers are modelled as `Nat` with
explicit bounds where overflow matters (u64 arithmetic uses `2 ^ 64`,
the signed 64-bit file-size limit is `2 ^ 63 - 1`).  Fallible paths are
`Except Errno`.  OS effects (dup2, metadata, writes, the poll syscall,
the readdir stream) are passed in as explicit inputs so that each
hostcall is a pure function of its inputs.
-/

/-- The guest-facing error taxonomy (the subset of the WASI errno enum used
by the operations embedded here). -/
inductive Errno where
  | ESUCCESS
  | E2BIG
  | EBADF
  | EFAULT
  | EILSEQ
  | EINVAL
  | EIO
  | ELOOP
  | ENAMETOOLONG
  | ENOENT
  | ENOSYS
  | ENOTCAPABLE
  | ENOTDIR
  | ENOTSUP
  | EOVERFLOW
  deriving DecidableEq, Repr

/-- Rights-mask bit for fd_datasync (bit 0 of the 64-bit rights mask). -/
def WASI_RIGHT_FD_DATASYNC : Nat := 1

/-- Rights-mask bit for fd_read (bit 1). -/
def WASI_RIGHT_FD_READ : Nat := 2

/-- Rights-mask bit for fd_seek (bit 2). -/
def WASI_RIGHT_FD_SEEK : Nat := 4

/-- Rights-mask bit for fd_sync (bit 4). -/
def WASI_RIGHT_FD_SYNC : Nat := 16

/-- Rights-mask bit for fd_tell (bit 5). -/
def WASI_RIGHT_FD_TELL : Nat := 32

/-- Rights-mask bit for fd_write (bit 6). -/
def WASI_RIGHT_FD_WRITE : Nat := 64

/-- Rights-mask bit for fd_allocate (bit 8). -/
def WASI_RIGHT_FD_ALLOCATE : Nat := 256

/-- Rights-mask bit for fd_readdir (bit 14). -/
def WASI_RIGHT_FD_READDIR : Nat := 16384

/-- Rights-mask bit for path_readlink (bit 15). -/
def WASI_RIGHT_PATH_READLINK : Nat := 32768

/-- WASI file-type code for a character device. -/
def WASI_FILETYPE_CHARACTER_DEVICE : Nat := 2

/-- WASI file-type code for a directory. -/
def WASI_FILETYPE_DIRECTORY : Nat := 3

/-- WASI file-type code for a regular file. -/
def WASI_FILETYPE_REGULAR_FILE : Nat := 4

/-- The tagged union `Descriptor` of `src/fdentry.rs`: an owned OS file
(identified here by its raw OS file-descriptor number) or one of the three
borrowed standard streams. -/
inductive Descriptor where
  | File (rawfd : Nat)
  | Stdin
  | Stdout
  | Stderr
  deriving DecidableEq, Repr

/-- `Descriptor::as_raw_fd`: the raw OS handle underlying a descriptor.
Owned files carry their raw fd; the borrowed standard streams are the
process's fds 0, 1 and 2. -/
def Descriptor.as_raw_fd : Descriptor → Nat
  | .File f => f
  | .Stdin => 0
  | .Stdout => 1
  | .Stderr => 2

/-- `FdObject` of `src/fdentry.rs`. -/
structure FdObject where
  file_type : Nat
  descriptor : Descriptor
  needs_close : Bool
  deriving DecidableEq, Repr

/-- `FdEntry` of `src/fdentry.rs`: one row of the descriptor table. -/
structure FdEntry where
  fd_object : FdObject
  rights_base : Nat
  rights_inheriting : Nat
  preopen_path : Option String
  deriving DecidableEq, Repr

/-- The descriptor table (`wasi_ctx.fds`): a finite map from guest handle to
entry, embedded as an association list with unique keys. -/
abbrev FdMap := List (Nat × FdEntry)

/-- Lookup of a guest handle in the descriptor table (`fds.get`). -/
def findFd : FdMap → Nat → Option FdEntry
  | [], _ => none
  | (k, v) :: rest, fd => if k = fd then some v else findFd rest fd

/-- Removal of a guest handle from the descriptor table (`fds.remove`):
drops the (unique) binding of the key if present. -/
def removeFd : FdMap → Nat → FdMap
  | [], _ => []
  | (k, v) :: rest, fd => if k = fd then rest else (k, v) :: removeFd rest fd

/-- In-place mutation of the entry bound to a guest handle
(the effect of writing through `fds.get_mut`). -/
def updateEntry : FdMap → Nat → FdEntry → FdMap
  | [], _, _ => []
  | (k, v) :: rest, fd, e =>
    if k = fd then (k, e) :: rest else (k, v) :: updateEntry rest fd e

/-- Modelled from the spec: the descriptor-table accessor
`WasiCtx::get_fd_entry` lives in `ctx.rs`, which is not among the provided
sources.  Spec section 4.2 defines `get(h, needed_base, needed_inheriting)`
to return the entry when it is present and both needed masks are subsets of
the entry's masks, to fail bad-handle when the handle is absent, and to fail
not-capable when the rights are insufficient. -/
def get_fd_entry (m : FdMap) (fd needed_base needed_inheriting : Nat) :
    Except Errno FdEntry :=
  match findFd m fd with
  | none => .error .EBADF
  | some fe =>
    if fe.rights_base &&& needed_base = needed_base ∧
        fe.rights_inheriting &&& needed_inheriting = needed_inheriting then
      .ok fe
    else
      .error .ENOTCAPABLE

/-- `fd_fdstat_set_rights` of `src/hostcalls/fs.rs` (lines 387-415): look the
entry up directly in the map, fail bad-handle when absent, fail not-capable
unless both requested masks are bitwise subsets of the current masks, and
otherwise overwrite both masks with the requested ones.  Returns the errno
together with the resulting table. -/
def fd_fdstat_set_rights (m : FdMap) (fd fs_rights_base fs_rights_inheriting : Nat) :
    Errno × FdMap :=
  match findFd m fd with
  | none => (.EBADF, m)
  | some fe =>
    if fe.rights_base &&& fs_rights_base ≠ fs_rights_base ∨
        fe.rights_inheriting &&& fs_rights_inheriting ≠ fs_rights_inheriting then
      (.ENOTCAPABLE, m)
    else
      (.ESUCCESS, updateEntry m fd
        { fe with
            rights_base := fs_rights_base
            rights_inheriting := fs_rights_inheriting })

/-- `fd_close` of `src/hostcalls/fs.rs` (lines 15-33): a present preopen
entry is refused with not-supported before any removal; otherwise the entry
is removed and success returned, or bad-handle when the handle is absent. -/
def fd_close (m : FdMap) (fd : Nat) : Errno × FdMap :=
  if (findFd m fd).elim false (fun fe => fe.preopen_path.isSome) then
    (.ENOTSUP, m)
  else
    match findFd m fd with
    | some _ => (.ESUCCESS, removeFd m fd)
    | none => (.EBADF, m)

lemma land_self_eq (n : Nat) : n &&& n = n := by
  refine Nat.eq_of_testBit_eq (fun i => ?_)
  simp [Nat.testBit_land]

lemma findFd_updateEntry (m : FdMap) (fd : Nat) (e : FdEntry) (k : Nat) :
    findFd (updateEntry m fd e) k =
      if k = fd then (findFd m fd).map (fun _ => e) else findFd m k := by
  induction m with
  | nil => by_cases h : k = fd <;> simp [updateEntry, findFd, h]
  | cons hd tl ih =>
    obtain ⟨k0, v0⟩ := hd
    by_cases h0 : k0 = fd
    · subst h0
      by_cases hk : k0 = k
      · subst hk
        simp [updateEntry, findFd]
      · have hk2 : ¬ k = k0 := fun h => hk h.symm
        simp [updateEntry, findFd, hk, hk2]
    · by_cases hk : k0 = k
      · subst hk
        have h0' : ¬ k0 = fd := h0
        simp [updateEntry, findFd, h0']
      · simp [updateEntry, findFd, h0, hk, ih]

lemma findFd_removeFd_ne (m : FdMap) (fd k : Nat) (h : k ≠ fd) :
    findFd (removeFd m fd) k = findFd m k := by
  induction m with
  | nil => simp [removeFd, findFd]
  | cons hd tl ih =>
    obtain ⟨k0, v0⟩ := hd
    by_cases h0 : k0 = fd
    · subst h0
      have hne : ¬ k0 = k := fun hh => h hh.symm
      simp [removeFd, findFd, hne]
    · simp only [removeFd, if_neg h0, findFd]
      by_cases hk : k0 = k
      · simp [hk]
      · simp [hk, ih]

lemma findFd_eq_none_of_not_mem (m : FdMap) (fd : Nat)
    (h : fd ∉ m.map Prod.fst) : findFd m fd = none := by
  induction m with
  | nil => rfl
  | cons hd tl ih =>
    obtain ⟨k0, v0⟩ := hd
    simp only [List.map_cons, List.mem_cons, not_or] at h
    have hne : ¬ k0 = fd := fun hh => h.1 hh.symm
    simp [findFd, hne, ih h.2]

lemma findFd_removeFd_self (m : FdMap) (fd : Nat)
    (hnodup : (m.map Prod.fst).Nodup) :
    findFd (removeFd m fd) fd = none := by
  induction m with
  | nil => rfl
  | cons hd tl ih =>
    obtain ⟨k0, v0⟩ := hd
    simp only [List.map_cons, List.nodup_cons] at hnodup
    by_cases h0 : k0 = fd
    · subst h0
      simp only [removeFd, if_pos rfl]
      exact findFd_eq_none_of_not_mem tl k0 hnodup.1
    · simp only [removeFd, if_neg h0, findFd]
      exact ih hnodup.2

/-- Maximum signed 64-bit value (`i64::max_value()` as u64). -/
def I64_MAX : Nat := 2 ^ 63 - 1

/-- One past the maximum unsigned 64-bit value; `checked_add` on u64
overflows exactly when the mathematical sum reaches this bound. -/
def U64_MOD : Nat := 2 ^ 64

/-- `fd_renumber` of `src/sys/unix/hostcalls_impl/fs.rs` (lines 34-65):
fail bad-handle when either handle is absent, not-supported when either
entry is a preopen; otherwise `dup2(rawfd_from, rawfd_to)` on the raw OS
fds (recorded in the result pair and assumed to succeed) followed by
`fds.remove(rawfd_from as __wasi_fd_t)` — the removal is keyed by the raw
OS fd of the source entry cast to a guest handle, exactly as the source
writes it. -/
def fd_renumber (m : FdMap) (fdFrom fdTo : Nat) :
    Except Errno (FdMap × (Nat × Nat)) :=
  match findFd m fdFrom with
  | none => .error .EBADF
  | some fe_from =>
    match findFd m fdTo with
    | none => .error .EBADF
    | some fe_to =>
      if fe_from.preopen_path.isSome ∨ fe_to.preopen_path.isSome then
        .error .ENOTSUP
      else
        let rawfd_from := fe_from.fd_object.descriptor.as_raw_fd
        let rawfd_to := fe_to.fd_object.descriptor.as_raw_fd
        .ok (removeFd m rawfd_from, (rawfd_from, rawfd_to))

/-- `fd_pwrite` of `src/hostcalls/fs.rs` (lines 123-180), with the iovecs
already decoded (`dec_iovec_slice` succeeded) and the OS-level
`hostcalls_impl::fd_pwrite` write passed in as `hostWrite`.  The rights
mask demanded from the entry is `WASI_RIGHT_FD_READ`, exactly as in the
source. -/
def fd_pwrite (m : FdMap) (fd : Nat) (iovs : List (List Nat)) (offset : Nat)
    (hostWrite : List Nat → Nat → Except Errno Nat) : Except Errno Nat :=
  match get_fd_entry m fd WASI_RIGHT_FD_READ 0 with
  | .error e => .error e
  | .ok fe =>
    match fe.fd_object.descriptor with
    | .File _ =>
      if offset > I64_MAX then .error Errno.EIO
      else hostWrite iovs.flatten offset
    | _ => .error .EBADF

/-- `fd_write` of `src/hostcalls/fs.rs` (lines 440-492), with decoded
iovecs and the OS write as `osWrite`.  The boolean records whether any OS
write was performed. -/
def fd_write (m : FdMap) (fd : Nat) (iovs : List (List Nat))
    (osWrite : Descriptor → List (List Nat) → Except Errno Nat) :
    Except Errno Nat × Bool :=
  match get_fd_entry m fd WASI_RIGHT_FD_WRITE 0 with
  | .error e => (.error e, false)
  | .ok fe =>
    match fe.fd_object.descriptor with
    | .File f => (osWrite (.File f) iovs, true)
    | .Stdin => (.error .EBADF, false)
    | .Stdout => (osWrite .Stdout iovs, true)
    | .Stderr => (osWrite .Stderr iovs, true)

/-- `fd_read` of `src/hostcalls/fs.rs` (lines 183-234), with decoded
iovecs and the OS read as `osRead`.  The wildcard arm of the source's
match sends `Stdout` and `Stderr` to bad-handle. -/
def fd_read (m : FdMap) (fd : Nat) (iovs : List (List Nat))
    (osRead : Descriptor → List (List Nat) → Except Errno Nat) :
    Except Errno Nat × Bool :=
  match get_fd_entry m fd WASI_RIGHT_FD_READ 0 with
  | .error e => (.error e, false)
  | .ok fe =>
    match fe.fd_object.descriptor with
    | .File f => (osRead (.File f) iovs, true)
    | .Stdin => (osRead .Stdin iovs, true)
    | .Stdout => (.error .EBADF, false)
    | .Stderr => (.error .EBADF, false)

/-- `fd_allocate` of `src/hostcalls/fs.rs` (lines 529-577).  `sizes` maps
each raw OS fd to the current size of the underlying file (the
`metadata()` call, assumed to succeed); the result is the size map after
the call (`set_len`, assumed to succeed, updates the file's size). -/
def fd_allocate (m : FdMap) (sizes : Nat → Nat) (fd offset len : Nat) :
    Except Errno (Nat → Nat) :=
  match get_fd_entry m fd WASI_RIGHT_FD_ALLOCATE 0 with
  | .error e => .error e
  | .ok fe =>
    match fe.fd_object.descriptor with
    | .File f =>
      let current_size := sizes f
      if U64_MOD ≤ offset + len then .error .E2BIG
      else
        let wanted_size := offset + len
        if wanted_size > I64_MAX then .error .E2BIG
        else if wanted_size > current_size then
          .ok (fun g => if g = f then wanted_size else sizes g)
        else .ok sizes
    | _ => .error .EBADF

/-- The single defined clock-subscription flag bit
(`__WASI_SUBSCRIPTION_CLOCK_ABSTIME`). -/
def WASI_SUBSCRIPTION_CLOCK_ABSTIME : Nat := 1

/-- `wasi_clock_to_relative_ns_delay` of `src/hostcalls_impl/misc.rs`
(lines 251-263).  `now` is the result of reading the system clock
(nanoseconds since the epoch), `none` when the clock cannot be read;
`saturating_sub` on u64 is truncated `Nat` subtraction. -/
def wasi_clock_to_relative_ns_delay (flags timeout : Nat) (now : Option Nat) :
    Except Errno Nat :=
  if flags ≠ WASI_SUBSCRIPTION_CLOCK_ABSTIME then .ok timeout
  else
    match now with
    | none => .error .ENOTCAPABLE
    | some n => .ok (timeout - n)

/-- Subscription kind tags (`__WASI_EVENTTYPE_*`). -/
inductive EventType where
  | clock
  | fd_read
  | fd_write
  deriving DecidableEq, Repr

/-- A decoded poll subscription (the result of a successful
`dec_subscription`); clock fields are meaningful for clock subscriptions,
the fd field for fd subscriptions. -/
structure Subscription where
  userdata : Nat
  type_ : EventType
  clock_flags : Nat
  clock_timeout : Nat
  fd : Nat
  deriving DecidableEq, Repr

/-- `ClockEventData` of `src/hostcalls_impl/misc.rs`. -/
structure ClockEventData where
  delay : Nat
  userdata : Nat
  deriving DecidableEq, Repr

/-- `FdEventData` of `src/hostcalls_impl/misc.rs`. -/
structure FdEventData where
  fd : Nat
  type_ : EventType
  userdata : Nat
  deriving DecidableEq, Repr

/-- A `__wasi_event_t` as produced by poll_oneoff. -/
structure WasiEvent where
  userdata : Nat
  type_ : EventType
  error : Errno
  nbytes : Nat
  flags : Nat
  deriving DecidableEq, Repr

/-- The hangup flag bit (`__WASI_EVENT_FD_READWRITE_HANGUP`). -/
def WASI_EVENT_FD_READWRITE_HANGUP : Nat := 1

/-- One step of Rust's `Iterator::min_by_key` (which keeps the first of
several equally minimal elements). -/
def minStep (acc : Option ClockEventData) (x : ClockEventData) :
    Option ClockEventData :=
  match acc with
  | none => some x
  | some a => if x.delay < a.delay then some x else some a

/-- `min_by_key` over the delay field, first minimum wins. -/
def minByDelay (l : List ClockEventData) : Option ClockEventData :=
  l.foldl minStep none

/-- The clock candidates built by `poll_oneoff` of
`src/hostcalls_impl/misc.rs` (lines 211-220): each clock subscription
whose delay conversion succeeds contributes its delay converted to
milliseconds (integer division by 1000000) and its userdata. -/
def clockCandidates (subs : List Subscription) (now : Option Nat) :
    List ClockEventData :=
  subs.filterMap (fun s =>
    if s.type_ = .clock then
      match wasi_clock_to_relative_ns_delay s.clock_flags s.clock_timeout now with
      | .ok d => some ⟨d / 1000000, s.userdata⟩
      | .error _ => none
    else none)

/-- The timeout selected by `poll_oneoff` (`min_by_key` over the clock
candidates' delays). -/
def pollTimeout (subs : List Subscription) (now : Option Nat) :
    Option ClockEventData :=
  minByDelay (clockCandidates subs now)

/-- The fd events collected by `poll_oneoff` of
`src/hostcalls_impl/misc.rs` (lines 222-237). -/
def pollFdEvents (subs : List Subscription) : List FdEventData :=
  subs.filterMap (fun s =>
    if s.type_ = .fd_read ∨ s.type_ = .fd_write then
      some ⟨s.fd, s.type_, s.userdata⟩
    else none)

/-- The revents bits the OS poll reports for one fd. -/
structure Revents where
  pollin : Bool
  pollout : Bool
  pollerr : Bool
  pollhup : Bool
  pollnval : Bool
  deriving DecidableEq, Repr

/-- Whether any revents bit is set (the OS counts such an fd as ready). -/
def reventsAny (r : Revents) : Bool :=
  r.pollin || r.pollout || r.pollerr || r.pollhup || r.pollnval

/-- The return value of the OS `poll(2)`: the number of poll structures
with nonzero revents. -/
def readyCount (osRevents : List (Option Revents)) : Nat :=
  osRevents.countP (fun o => o.elim false reventsAny)

/-- `poll_oneoff_handle_timeout_event` of
`src/sys/unix/hostcalls_impl/misc.rs` (lines 119-133): one clock event
with the winning subscription's userdata, success, zero bytes, zero
flags. -/
def poll_oneoff_handle_timeout_event (timeout : ClockEventData) :
    List WasiEvent :=
  [⟨timeout.userdata, .clock, .ESUCCESS, 0, 0⟩]

/-- `poll_oneoff_handle_fd_event` of
`src/sys/unix/hostcalls_impl/misc.rs` (lines 135-208).  `fionread` gives
the byte count the FIONREAD ioctl reports for an fd. -/
def poll_oneoff_handle_fd_event
    (events : List (FdEventData × Option Revents)) (fionread : Nat → Nat) :
    List WasiEvent :=
  events.filterMap (fun p =>
    match p.2 with
    | none => none
    | some revents =>
      let nbytes := if p.1.type_ = .fd_read then fionread p.1.fd else 0
      if revents.pollnval then
        some ⟨p.1.userdata, p.1.type_, .EBADF, 0, WASI_EVENT_FD_READWRITE_HANGUP⟩
      else if revents.pollerr then
        some ⟨p.1.userdata, p.1.type_, Errno.EIO, 0, WASI_EVENT_FD_READWRITE_HANGUP⟩
      else if revents.pollhup then
        some ⟨p.1.userdata, p.1.type_, .ESUCCESS, 0, WASI_EVENT_FD_READWRITE_HANGUP⟩
      else if revents.pollin || revents.pollout then
        some ⟨p.1.userdata, p.1.type_, .ESUCCESS, nbytes, 0⟩
      else none)

/-- `poll_oneoff` of `src/sys/unix/hostcalls_impl/misc.rs` (lines 71-133).
`osRevents` lists, aligned with `fd_events`, the revents the OS poll
reports per fd (`none` = no revents).  Returns `none` where the source
panics (`expect` on a missing timeout when the poll times out). -/
def sys_poll_oneoff (fd_events : List FdEventData)
    (timeout : Option ClockEventData)
    (osRevents : List (Option Revents)) (fionread : Nat → Nat) :
    Option (List WasiEvent) :=
  if fd_events = [] ∧ timeout = none then some []
  else
    let ready := readyCount osRevents
    if ready = 0 then
      match timeout with
      | some t => some (poll_oneoff_handle_timeout_event t)
      | none => none
    else
      some (poll_oneoff_handle_fd_event
        ((fd_events.zip osRevents).take ready) fionread)

/-- The composition performed by `poll_oneoff` of
`src/hostcalls_impl/misc.rs` (lines 186-249): partition the decoded
subscriptions, select the timeout, and run the OS-level poll. -/
def poll_oneoff (subs : List Subscription) (now : Option Nat)
    (osRevents : List (Option Revents)) (fionread : Nat → Nat) :
    Option (List WasiEvent) :=
  sys_poll_oneoff (pollFdEvents subs) (pollTimeout subs now) osRevents fionread

/-- A directory entry as the OS `readdir_r` reports it: name, the seek
cookie (`d_off`) that resumes enumeration immediately after this entry,
inode and type. -/
structure OsDirent where
  d_name : String
  d_off : Nat
  d_ino : Nat
  d_type : Nat
  deriving DecidableEq, Repr

/-- A guest-facing `__wasi_dirent_t` together with the name bytes that
follow it in the buffer. -/
structure WasiDirent where
  d_next : Nat
  d_ino : Nat
  d_namlen : Nat
  d_type : Nat
  name : String
  deriving DecidableEq, Repr

/-- Modelled from the spec: `dirent_from_host` lives in
`src/sys/unix/host_impl.rs`, which is not among the provided sources.
Spec section 4.4 has each emitted entry carry the cookie that resumes
immediately after it — for the Unix passthrough that is the OS seek
offset `d_off` — and section 6 fixes the dirent record at 24 bytes plus
the variable-length name, whose fields mirror the OS entry. -/
def dirent_from_host (e : OsDirent) : WasiDirent :=
  ⟨e.d_off, e.d_ino, e.d_name.length, e.d_type, e.d_name⟩

/-- Size of the fixed part of a `__wasi_dirent_t` (24 bytes). -/
def DIRENT_SIZE : Nat := 24

/-- The copy loop of `fd_readdir` in `src/sys/unix/hostcalls_impl/fs.rs`
(lines 370-408): convert OS entries in stream order, stopping when the
stream ends or the next entry (header plus name) no longer fits in the
remaining space.  Returns the emitted guest entries in order. -/
def fd_readdir_unix_loop : List OsDirent → Nat → List WasiDirent
  | _, 0 => []
  | [], _ => []
  | e :: rest, left =>
    let entry := dirent_from_host e
    let required_space := DIRENT_SIZE + entry.d_namlen
    if required_space > left then []
    else entry :: fd_readdir_unix_loop rest (left - required_space)

/-- `fd_readdir` of `src/sys/unix/hostcalls_impl/fs.rs` (lines 353-410):
the OS stream (already positioned by `seekdir` for a nonzero cookie; for
cookie 0 it is the stream from the start of the directory) is copied into
the guest buffer entry by entry.  No `.` or `..` entries are synthesised:
whatever the OS yields is passed through. -/
def fd_readdir_unix (osStream : List OsDirent) (host_buf_len : Nat) :
    List WasiDirent :=
  fd_readdir_unix_loop osStream host_buf_len

/-- What the Windows implementation can observe about one object in a
directory listing: name, file type, serial number. -/
structure OsFileInfo where
  name : String
  ftype : Nat
  ino : Nat
  deriving DecidableEq, Repr

/-- `Dirent` of `src/hostcalls_impl` as built by the Windows
`fd_readdir`. -/
structure WinDirent where
  name : String
  ftype : Nat
  ino : Nat
  cookie : Nat
  deriving DecidableEq, Repr

/-- `dirent_from_path` of `src/sys/windows/hostcalls_impl/fs.rs` (lines
162-179): an entry whose name is the final component of the given path
(`path.file_name()`), with the requested cookie and the opened file's
type and serial number. -/
def dirent_from_path (info : OsFileInfo) (cookie : Nat) : WinDirent :=
  ⟨info.name, info.ftype, info.ino, cookie⟩

/-- `fd_readdir` of `src/sys/windows/hostcalls_impl/fs.rs` (lines
181-220): emulate a first entry from the directory's own path with cookie
1 and a second from its parent's path with cookie 2, then number the OS
listing from 3 upward, and skip the first `cookie` entries of the
combined sequence. -/
def fd_readdir_windows (dirInfo parentInfo : OsFileInfo)
    (osEntries : List OsFileInfo) (cookie : Nat) : List WinDirent :=
  let dot := dirent_from_path dirInfo 1
  let dotdot := dirent_from_path parentInfo 2
  let numbered := osEntries.enum.map (fun p =>
    (⟨p.2.name, p.2.ftype, p.2.ino, p.1 + 3⟩ : WinDirent))
  ((dot :: dotdot :: numbered).drop cookie)

/-- The guest's linear memory: a byte store of the given size. -/
structure GuestMem where
  size : Nat
  data : Nat → Nat

/-- Modelled from the spec: `enc_usize_byref` lives in `src/memory.rs`,
which is not among the provided sources.  Spec section 4.1 has encode
pointee write the value's bytes at the offset in the ABI's little-endian
layout (usize is 4 bytes on the 32-bit guest) and fail with fault when
the write would exceed the memory. -/
def enc_usize_byref (mem : GuestMem) (ptr v : Nat) : Except Errno GuestMem :=
  if ptr + 4 ≤ mem.size then
    .ok ⟨mem.size,
      fun a => if ptr ≤ a ∧ a < ptr + 4 then v / 256 ^ (a - ptr) % 256 else mem.data a⟩
  else .error .EFAULT

/-- Modelled from the spec: the bounds check of `dec_slice_of_mut` of
`src/memory.rs` (not among the provided sources); spec section 4.1 has
decode slice-of fail with fault on overflow or out-of-bounds. -/
def dec_slice_check (mem : GuestMem) (ptr len : Nat) : Except Errno Unit :=
  if ptr + len ≤ mem.size then .ok () else .error .EFAULT

/-- The 4-byte little-endian usize the guest reads back at `ptr`. -/
def read_usize (mem : GuestMem) (ptr : Nat) : Nat :=
  mem.data ptr + 256 * mem.data (ptr + 1) + 65536 * mem.data (ptr + 2)
    + 16777216 * mem.data (ptr + 3)

/-- The writes an OS-level body performs through a mutable guest-buffer
slice: each pair is (offset within the buffer, byte).  Slice writes are
bounds-checked, so offsets at or beyond the buffer length write
nothing. -/
def writeBytes : GuestMem → Nat → Nat → List (Nat × Nat) → GuestMem
  | mem, _, _, [] => mem
  | mem, base, len, w :: ws =>
    writeBytes
      (if w.1 < len then
        ⟨mem.size, fun a => if a = base + w.1 then w.2 % 256 else mem.data a⟩
      else mem) base len ws

/-- `fd_readdir` of `src/hostcalls/fs.rs` (lines 759-809), at the level of
its guest-memory effects: write 0 to the used-count location first, then
rights check, then decode the destination buffer, then run the OS-level
body (whose buffer writes `implWrites` and result `implResult` are
inputs), and finally write the used count on success. -/
def fd_readdir_host (mem : GuestMem) (m : FdMap)
    (fd buf buf_len buf_used : Nat)
    (implWrites : List (Nat × Nat)) (implResult : Except Errno Nat) :
    Errno × GuestMem :=
  match enc_usize_byref mem buf_used 0 with
  | .error e => (e, mem)
  | .ok mem1 =>
    match get_fd_entry m fd WASI_RIGHT_FD_READDIR 0 with
    | .error e => (e, mem1)
    | .ok _ =>
      match dec_slice_check mem1 buf buf_len with
      | .error e => (e, mem1)
      | .ok _ =>
        let mem2 := writeBytes mem1 buf buf_len implWrites
        match implResult with
        | .error e => (e, mem2)
        | .ok host_bufused =>
          match enc_usize_byref mem2 buf_used host_bufused with
          | .error e => (e, mem2)
          | .ok mem3 => (.ESUCCESS, mem3)

/-- `path_readlink` of `src/hostcalls/fs.rs` (lines 811-867), at the level
of its guest-memory effects: write 0 to the used-count location first,
then decode the path (`pathDecode`), then decode the destination buffer,
then run the OS-level body (which performs the rights check through
`path_get`; its buffer writes and result are inputs), and finally write
the used count on success. -/
def path_readlink_host (mem : GuestMem)
    (buf buf_len buf_used : Nat) (pathDecode : Except Errno Unit)
    (implWrites : List (Nat × Nat)) (implResult : Except Errno Nat) :
    Errno × GuestMem :=
  match enc_usize_byref mem buf_used 0 with
  | .error e => (e, mem)
  | .ok mem1 =>
    match pathDecode with
    | .error e => (e, mem1)
    | .ok _ =>
      match dec_slice_check mem1 buf buf_len with
      | .error e => (e, mem1)
      | .ok _ =>
        let mem2 := writeBytes mem1 buf buf_len implWrites
        match implResult with
        | .error e => (e, mem2)
        | .ok host_bufused =>
          match enc_usize_byref mem2 buf_used host_bufused with
          | .error e => (e, mem2)
          | .ok mem3 => (.ESUCCESS, mem3)

/-- Claim C1: `fd_fdstat_set_rights`, the only guest-facing mutation of the
rights masks, succeeds exactly when both requested masks are bitwise
subsets of the entry's current masks; otherwise it returns not-capable and
leaves the table unchanged; and every entry of the resulting table carries
masks that are bitwise subsets of the masks the same handle carried
before, so the masks are monotonically non-increasing. -/
theorem fd_fdstat_set_rights_narrows (m : FdMap) (fd rb ri : Nat) (fe : FdEntry)
    (hfe : findFd m fd = some fe) :
    ((fd_fdstat_set_rights m fd rb ri).1 = .ESUCCESS ↔
      fe.rights_base &&& rb = rb ∧ fe.rights_inheriting &&& ri = ri)
    ∧ ((fd_fdstat_set_rights m fd rb ri).1 ≠ .ESUCCESS →
      (fd_fdstat_set_rights m fd rb ri).1 = .ENOTCAPABLE ∧
      (fd_fdstat_set_rights m fd rb ri).2 = m)
    ∧ (∀ k e2, findFd (fd_fdstat_set_rights m fd rb ri).2 k = some e2 →
      ∃ e1, findFd m k = some e1 ∧
        e1.rights_base &&& e2.rights_base = e2.rights_base ∧
        e1.rights_inheriting &&& e2.rights_inheriting = e2.rights_inheriting) := by
  by_cases hc : fe.rights_base &&& rb ≠ rb ∨ fe.rights_inheriting &&& ri ≠ ri
  · have hres : fd_fdstat_set_rights m fd rb ri = (.ENOTCAPABLE, m) := by
      simp only [fd_fdstat_set_rights, hfe]
      rw [if_pos hc]
    refine ⟨⟨fun h => ?_, fun h => ?_⟩, fun _ => ?_, ?_⟩
    · rw [hres] at h
      exact Errno.noConfusion h
    · rcases hc with hc | hc
      · exact absurd h.1 hc
      · exact absurd h.2 hc
    · rw [hres]
      exact ⟨rfl, rfl⟩
    · intro k e2 h2
      rw [hres] at h2
      exact ⟨e2, h2, land_self_eq _, land_self_eq _⟩
  · push_neg at hc
    have hres : fd_fdstat_set_rights m fd rb ri =
        (.ESUCCESS, updateEntry m fd
          { fe with rights_base := rb, rights_inheriting := ri }) := by
      simp only [fd_fdstat_set_rights, hfe]
      rw [if_neg]
      push_neg
      exact hc
    refine ⟨⟨fun _ => hc, fun _ => ?_⟩, fun h => ?_, ?_⟩
    · rw [hres]
    · exact absurd (by rw [hres]) h
    · intro k e2 h2
      rw [hres, findFd_updateEntry] at h2
      by_cases hk : k = fd
      · rw [if_pos hk, hfe] at h2
        simp only [Option.map_some'] at h2
        have h3 := Option.some.inj h2
        subst h3
        refine ⟨fe, by rw [hk]; exact hfe, ?_, ?_⟩
        · simpa using hc.1
        · simpa using hc.2
      · rw [if_neg hk] at h2
        exact ⟨e2, h2, land_self_eq _, land_self_eq _⟩

/-- Witness for claim C1: narrowing an entry that holds fd_read plus
fd_write down to fd_read alone succeeds. -/
theorem fd_fdstat_set_rights_narrows_witness :
    (fd_fdstat_set_rights
        [(3, ⟨⟨WASI_FILETYPE_REGULAR_FILE, .File 5, true⟩, 66, 0, none⟩)]
        3 2 0).1 = .ESUCCESS :=
  (fd_fdstat_set_rights_narrows
      [(3, ⟨⟨WASI_FILETYPE_REGULAR_FILE, .File 5, true⟩, 66, 0, none⟩)]
      3 2 0 ⟨⟨WASI_FILETYPE_REGULAR_FILE, .File 5, true⟩, 66, 0, none⟩
      (by decide)).1.mpr (by decide)

/-- Claim C2: `fd_close` refuses a present preopen entry with not-supported
and leaves the table unchanged (the handle stays usable), returns
bad-handle for an absent handle, and otherwise removes the entry and
returns success. -/
theorem fd_close_spec (m : FdMap) (fd : Nat)
    (hnodup : (m.map Prod.fst).Nodup) :
    (∀ fe, findFd m fd = some fe → fe.preopen_path.isSome →
      fd_close m fd = (.ENOTSUP, m))
    ∧ (findFd m fd = none → fd_close m fd = (.EBADF, m))
    ∧ (∀ fe, findFd m fd = some fe → fe.preopen_path = none →
      (fd_close m fd).1 = .ESUCCESS ∧
      findFd (fd_close m fd).2 fd = none ∧
      ∀ k, k ≠ fd → findFd (fd_close m fd).2 k = findFd m k) := by
  refine ⟨?_, ?_, ?_⟩
  · intro fe hfe hpre
    simp [fd_close, hfe, hpre]
  · intro hnone
    simp [fd_close, hnone]
  · intro fe hfe hpre
    have hres : fd_close m fd = (.ESUCCESS, removeFd m fd) := by
      simp [fd_close, hfe, hpre]
    rw [hres]
    exact ⟨rfl, findFd_removeFd_self m fd hnodup,
      fun k hk => findFd_removeFd_ne m fd k hk⟩

/-- Witness for claim C2: closing a preopened directory handle fails
not-supported and the table is unchanged. -/
theorem fd_close_spec_witness :
    fd_close
        [(3, ⟨⟨WASI_FILETYPE_DIRECTORY, .File 5, true⟩, 0, 0, some "/tmp"⟩)]
        3
      = (.ENOTSUP,
        [(3, ⟨⟨WASI_FILETYPE_DIRECTORY, .File 5, true⟩, 0, 0, some "/tmp"⟩)]) :=
  (fd_close_spec
      [(3, ⟨⟨WASI_FILETYPE_DIRECTORY, .File 5, true⟩, 0, 0, some "/tmp"⟩)]
      3 (by decide)).1
    ⟨⟨WASI_FILETYPE_DIRECTORY, .File 5, true⟩, 0, 0, some "/tmp"⟩
    (by decide) (by decide)

/-- Claim C3: evaluating `fd_renumber` at a table whose entries' raw OS fds
(7 and 8) differ from every guest handle (3 and 4): the call succeeds and
dups raw fd 7 over raw fd 8, but the removal — keyed by the raw OS fd of
the source rather than by the guest handle `from` — removes nothing, so
the source entry at guest handle 3 is still present afterwards. -/
theorem fd_renumber_keeps_source_entry :
    fd_renumber
        [(3, ⟨⟨WASI_FILETYPE_REGULAR_FILE, .File 7, true⟩, 0, 0, none⟩),
         (4, ⟨⟨WASI_FILETYPE_REGULAR_FILE, .File 8, true⟩, 0, 0, none⟩)]
        3 4
      = .ok
        ([(3, ⟨⟨WASI_FILETYPE_REGULAR_FILE, .File 7, true⟩, 0, 0, none⟩),
          (4, ⟨⟨WASI_FILETYPE_REGULAR_FILE, .File 8, true⟩, 0, 0, none⟩)],
         (7, 8))
    ∧ (findFd
        [(3, ⟨⟨WASI_FILETYPE_REGULAR_FILE, .File 7, true⟩, 0, 0, none⟩),
         (4, ⟨⟨WASI_FILETYPE_REGULAR_FILE, .File 8, true⟩, 0, 0, none⟩)]
        3).isSome := by
  exact ⟨rfl, rfl⟩

/-- Claim C4: `fd_pwrite` demands the fd_read right: an entry lacking
fd_read (it may well hold fd_write) fails not-capable before any write is
attempted, while an entry holding fd_read passes the rights check and the
call reduces to the OS-level write of the gathered buffers. -/
theorem fd_pwrite_demands_fd_read (m : FdMap) (fd : Nat)
    (iovs : List (List Nat)) (offset : Nat)
    (hostWrite : List Nat → Nat → Except Errno Nat) (fe : FdEntry)
    (hfe : findFd m fd = some fe) :
    (fe.rights_base &&& WASI_RIGHT_FD_READ ≠ WASI_RIGHT_FD_READ →
      fd_pwrite m fd iovs offset hostWrite = .error .ENOTCAPABLE)
    ∧ (fe.rights_base &&& WASI_RIGHT_FD_READ = WASI_RIGHT_FD_READ →
      ∀ f, fe.fd_object.descriptor = .File f → offset ≤ I64_MAX →
      fd_pwrite m fd iovs offset hostWrite = hostWrite iovs.flatten offset) := by
  constructor
  · intro h
    have hget : get_fd_entry m fd WASI_RIGHT_FD_READ 0 = .error .ENOTCAPABLE := by
      simp [get_fd_entry, hfe, h]
    simp [fd_pwrite, hget]
  · intro h f hdesc hoff
    have hget : get_fd_entry m fd WASI_RIGHT_FD_READ 0 = .ok fe := by
      simp [get_fd_entry, hfe, h]
    simp only [fd_pwrite, hget, hdesc]
    rw [if_neg (by omega)]

/-- Witness for claim C4: an entry holding only fd_write is refused
not-capable by `fd_pwrite`. -/
theorem fd_pwrite_demands_fd_read_witness :
    fd_pwrite
        [(3, ⟨⟨WASI_FILETYPE_REGULAR_FILE, .File 5, true⟩, 64, 0, none⟩)]
        3 [[1, 2]] 0 (fun _ _ => .ok 2)
      = .error .ENOTCAPABLE :=
  (fd_pwrite_demands_fd_read
      [(3, ⟨⟨WASI_FILETYPE_REGULAR_FILE, .File 5, true⟩, 64, 0, none⟩)]
      3 [[1, 2]] 0 (fun _ _ => .ok 2)
      ⟨⟨WASI_FILETYPE_REGULAR_FILE, .File 5, true⟩, 64, 0, none⟩
      (by decide)).1 (by decide)

/-- Claim C6: with the absolute-time flag set, the clock subscription's
timeout is converted to the relative delay max(0, timeout - now); when
the current time cannot be read the conversion fails not-capable. -/
theorem wasi_clock_abstime_delay (flags timeout : Nat) (now : Option Nat)
    (hflags : flags = WASI_SUBSCRIPTION_CLOCK_ABSTIME) :
    (∀ n, now = some n →
      ∃ d, wasi_clock_to_relative_ns_delay flags timeout now = .ok d ∧
        (d : ℤ) = max 0 ((timeout : ℤ) - (n : ℤ)))
    ∧ (now = none →
      wasi_clock_to_relative_ns_delay flags timeout now = .error .ENOTCAPABLE) := by
  subst hflags
  constructor
  · intro n hn
    subst hn
    refine ⟨timeout - n, ?_, ?_⟩
    · simp [wasi_clock_to_relative_ns_delay]
    · omega
  · intro hn
    subst hn
    simp [wasi_clock_to_relative_ns_delay]

/-- Witness for claim C6: an absolute deadline of 5 ns read at time 7 ns
yields a relative delay of max(0, 5 - 7) = 0. -/
theorem wasi_clock_abstime_delay_witness :
    ∃ d, wasi_clock_to_relative_ns_delay 1 5 (some 7) = .ok d ∧
      (d : ℤ) = max 0 ((5 : ℤ) - (7 : ℤ)) :=
  (wasi_clock_abstime_delay 1 5 (some 7) rfl).1 7 rfl

/-- Claim C5 (amended, Windows side): for cookie 0 the Windows `fd_readdir`
yields first the two emulated entries — built from the directory's own
path and its parent's path, carrying those directories' names — with
resume cookies 1 and 2, and every subsequent entry carries a cookie of at
least 3. -/
theorem fd_readdir_windows_emulated_first (dirInfo parentInfo : OsFileInfo)
    (osEntries : List OsFileInfo) :
    (fd_readdir_windows dirInfo parentInfo osEntries 0).take 2
      = [⟨dirInfo.name, dirInfo.ftype, dirInfo.ino, 1⟩,
         ⟨parentInfo.name, parentInfo.ftype, parentInfo.ino, 2⟩]
    ∧ ∀ d ∈ (fd_readdir_windows dirInfo parentInfo osEntries 0).drop 2,
        3 ≤ d.cookie := by
  constructor
  · rfl
  · intro d hd
    simp only [fd_readdir_windows, dirent_from_path, List.drop_succ_cons,
      List.drop_zero] at hd
    rcases List.mem_map.mp hd with ⟨p, _, rfl⟩
    show 3 ≤ p.1 + 3
    omega

/-- Claim C5 (counterexample, Unix side): the Unix `fd_readdir` passes the
OS stream through without synthesising any entries; when the OS yields
the entry foo with seek cookie 42 first, the first guest-visible entry is
foo with cookie 42, not a dot entry with cookie 1. -/
theorem fd_readdir_unix_no_emulated_dots :
    ((fd_readdir_unix [⟨"foo", 42, 9, 4⟩] 100).map
        (fun d => (d.name, d.d_next)) = [("foo", 42)])
    ∧ ("foo" ≠ "." ∧ (42 : Nat) ≠ 1) := by
  constructor
  · rfl
  · exact ⟨by decide, by decide⟩

lemma minByDelay_go (l : List ClockEventData) :
    ∀ a : ClockEventData, ∃ w, l.foldl minStep (some a) = some w ∧
      (w = a ∨ w ∈ l) ∧ w.delay ≤ a.delay ∧ ∀ c ∈ l, w.delay ≤ c.delay := by
  induction l with
  | nil =>
    intro a
    exact ⟨a, rfl, Or.inl rfl, le_refl _, by simp⟩
  | cons x rest ih =>
    intro a
    simp only [List.foldl_cons]
    by_cases hx : x.delay < a.delay
    · have hstep : minStep (some a) x = some x := by simp [minStep, hx]
      rw [hstep]
      obtain ⟨w, hw, hmem, hle, hall⟩ := ih x
      refine ⟨w, hw, ?_, le_trans hle (le_of_lt hx), ?_⟩
      · rcases hmem with rfl | hmem
        · exact Or.inr (List.mem_cons_self _ _)
        · exact Or.inr (List.mem_cons_of_mem _ hmem)
      · intro c hc
        rcases List.mem_cons.mp hc with rfl | hc
        · exact hle
        · exact hall c hc
    · have hstep : minStep (some a) x = some a := by simp [minStep, hx]
      rw [hstep]
      obtain ⟨w, hw, hmem, hle, hall⟩ := ih a
      refine ⟨w, hw, ?_, hle, ?_⟩
      · rcases hmem with rfl | hmem
        · exact Or.inl rfl
        · exact Or.inr (List.mem_cons_of_mem _ hmem)
      · intro c hc
        rcases List.mem_cons.mp hc with rfl | hc
        · exact le_trans hle (Nat.le_of_not_lt hx)
        · exact hall c hc

lemma minByDelay_spec (l : List ClockEventData) (w : ClockEventData)
    (h : minByDelay l = some w) : w ∈ l ∧ ∀ c ∈ l, w.delay ≤ c.delay := by
  cases l with
  | nil => exact absurd h (by simp [minByDelay])
  | cons x rest =>
    unfold minByDelay at h
    simp only [List.foldl_cons] at h
    have hstep : minStep none x = some x := rfl
    rw [hstep] at h
    obtain ⟨w2, hw2, hmem, hle, hall⟩ := minByDelay_go rest x
    rw [hw2] at h
    obtain rfl := Option.some.inj h
    constructor
    · rcases hmem with rfl | hmem
      · exact List.mem_cons_self _ _
      · exact List.mem_cons_of_mem _ hmem
    · intro c hc
      rcases List.mem_cons.mp hc with rfl | hc
      · exact hle
      · exact hall c hc

/-- Claim C7 (amended): `poll_oneoff` selects as its timeout the clock
candidate whose millisecond-truncated delay is minimal (the first listed
among equally minimal ones) and ignores the other clock subscriptions;
when the OS poll then reports no ready fd, exactly one event is emitted,
for that winning subscription, with its userdata echoed, the success
error code and zero bytes. -/
theorem poll_oneoff_timeout_event (subs : List Subscription) (now : Option Nat)
    (osRevents : List (Option Revents)) (fionread : Nat → Nat)
    (w : ClockEventData)
    (hw : pollTimeout subs now = some w)
    (hready : readyCount osRevents = 0) :
    poll_oneoff subs now osRevents fionread
      = some [⟨w.userdata, .clock, .ESUCCESS, 0, 0⟩]
    ∧ w ∈ clockCandidates subs now
    ∧ ∀ c ∈ clockCandidates subs now, w.delay ≤ c.delay := by
  obtain ⟨hmem, hall⟩ := minByDelay_spec _ _ hw
  refine ⟨?_, hmem, hall⟩
  simp [poll_oneoff, sys_poll_oneoff, hw, hready, poll_oneoff_handle_timeout_event]

/-- Witness for claim C7: a single relative clock subscription of 5 ms
with userdata 7 produces, when the poll times out, exactly the one clock
event with userdata 7, success and zero bytes. -/
theorem poll_oneoff_timeout_event_witness :
    poll_oneoff [⟨7, .clock, 0, 5000000, 0⟩] none [] (fun _ => 0)
      = some [⟨7, .clock, .ESUCCESS, 0, 0⟩] :=
  (poll_oneoff_timeout_event [⟨7, .clock, 0, 5000000, 0⟩] none [] (fun _ => 0)
      ⟨5, 7⟩ rfl rfl).1

/-- Claim C7 (counterexample): two relative clock subscriptions of
900000 ns (userdata 1) and 100000 ns (userdata 2) both truncate to a 0 ms
delay, so the first listed wins and the timeout event echoes userdata 1 —
although the subscription with the earliest deadline is the one with
userdata 2, since 100000 < 900000. -/
theorem poll_oneoff_not_earliest_deadline :
    poll_oneoff
        [⟨1, .clock, 0, 900000, 0⟩, ⟨2, .clock, 0, 100000, 0⟩]
        none [] (fun _ => 0)
      = some [⟨1, .clock, .ESUCCESS, 0, 0⟩]
    ∧ (100000 : Nat) < 900000 := by
  exact ⟨rfl, by decide⟩

/-- Claim C8: on a file descriptor holding the fd_allocate right,
`fd_allocate` fails too-big when offset + len overflows unsigned 64-bit
arithmetic or exceeds the signed 64-bit file-size limit; otherwise it
succeeds and the file grows to offset + len exactly when its current size
is smaller (other files are untouched); in particular offset = len = 0
succeeds with the size map unchanged. -/
theorem fd_allocate_spec (m : FdMap) (sizes : Nat → Nat) (fd offset len : Nat)
    (fe : FdEntry) (f : Nat)
    (hfe : findFd m fd = some fe)
    (hr : fe.rights_base &&& WASI_RIGHT_FD_ALLOCATE = WASI_RIGHT_FD_ALLOCATE)
    (hdesc : fe.fd_object.descriptor = .File f) :
    ((U64_MOD ≤ offset + len ∨ I64_MAX < offset + len) →
      fd_allocate m sizes fd offset len = .error .E2BIG)
    ∧ (offset + len < U64_MOD → offset + len ≤ I64_MAX →
      ∃ sizes2, fd_allocate m sizes fd offset len = .ok sizes2 ∧
        sizes2 f = max (sizes f) (offset + len) ∧
        ∀ g, g ≠ f → sizes2 g = sizes g)
    ∧ (offset = 0 → len = 0 → fd_allocate m sizes fd offset len = .ok sizes) := by
  have hget : get_fd_entry m fd WASI_RIGHT_FD_ALLOCATE 0 = .ok fe := by
    simp [get_fd_entry, hfe, hr]
  refine ⟨?_, ?_, ?_⟩
  · intro h
    by_cases h64 : U64_MOD ≤ offset + len
    · simp [fd_allocate, hget, hdesc, h64]
    · have hi : I64_MAX < offset + len := by
        rcases h with h | h
        · exact absurd h h64
        · exact h
      simp [fd_allocate, hget, hdesc, h64, hi]
  · intro h1 h2
    have h64 : ¬ U64_MOD ≤ offset + len := Nat.not_le.mpr h1
    have hi : ¬ I64_MAX < offset + len := Nat.not_lt.mpr h2
    by_cases hc : sizes f < offset + len
    · refine ⟨fun g => if g = f then offset + len else sizes g, ?_, ?_, ?_⟩
      · simp [fd_allocate, hget, hdesc, h64, hi, hc]
      · simp [max_eq_right (le_of_lt hc)]
      · intro g hg
        simp [hg]
    · refine ⟨sizes, ?_, ?_, fun g _ => rfl⟩
      · simp [fd_allocate, hget, hdesc, h64, hi, hc]
      · rw [max_eq_left (Nat.le_of_not_lt hc)]
  · intro h0 hl
    subst h0
    subst hl
    have h64 : ¬ U64_MOD ≤ 0 + 0 := by norm_num [U64_MOD]
    have hi : ¬ I64_MAX < 0 + 0 := by norm_num
    have hc : ¬ sizes f < 0 + 0 := by norm_num
    simp [fd_allocate, hget, hdesc, h64, hi, hc]

/-- Witness for claim C8: allocating offset = 0, len = 0 on a regular file
of size 10 succeeds and leaves every file size unchanged. -/
theorem fd_allocate_spec_witness :
    fd_allocate
        [(3, ⟨⟨WASI_FILETYPE_REGULAR_FILE, .File 5, true⟩, 256, 0, none⟩)]
        (fun _ => 10) 3 0 0 = .ok (fun _ => 10) :=
  (fd_allocate_spec
      [(3, ⟨⟨WASI_FILETYPE_REGULAR_FILE, .File 5, true⟩, 256, 0, none⟩)]
      (fun _ => 10) 3 0 0
      ⟨⟨WASI_FILETYPE_REGULAR_FILE, .File 5, true⟩, 256, 0, none⟩ 5
      (by decide) (by decide) rfl).2.2 rfl rfl

/-- Claim C9 (amended): provided the rights check passes (the entry holds
the demanded right), `fd_write` on an entry whose descriptor is the
borrowed standard-input stream returns bad-handle with no OS write
performed, and `fd_read` on an entry whose descriptor is the borrowed
standard-output or standard-error stream returns bad-handle with no OS
read performed; when the rights check fails, not-capable is returned,
likewise before any I/O. -/
theorem stdio_bad_handle (m : FdMap) (fd : Nat) (iovs : List (List Nat))
    (osW osR : Descriptor → List (List Nat) → Except Errno Nat) (fe : FdEntry)
    (hfe : findFd m fd = some fe) :
    (fe.fd_object.descriptor = .Stdin →
      fe.rights_base &&& WASI_RIGHT_FD_WRITE = WASI_RIGHT_FD_WRITE →
      fd_write m fd iovs osW = (.error .EBADF, false))
    ∧ ((fe.fd_object.descriptor = .Stdout ∨ fe.fd_object.descriptor = .Stderr) →
      fe.rights_base &&& WASI_RIGHT_FD_READ = WASI_RIGHT_FD_READ →
      fd_read m fd iovs osR = (.error .EBADF, false))
    ∧ (fe.rights_base &&& WASI_RIGHT_FD_WRITE ≠ WASI_RIGHT_FD_WRITE →
      fd_write m fd iovs osW = (.error .ENOTCAPABLE, false))
    ∧ (fe.rights_base &&& WASI_RIGHT_FD_READ ≠ WASI_RIGHT_FD_READ →
      fd_read m fd iovs osR = (.error .ENOTCAPABLE, false)) := by
  refine ⟨?_, ?_, ?_, ?_⟩
  · intro hdesc hr
    have hget : get_fd_entry m fd WASI_RIGHT_FD_WRITE 0 = .ok fe := by
      simp [get_fd_entry, hfe, hr]
    simp [fd_write, hget, hdesc]
  · intro hdesc hr
    have hget : get_fd_entry m fd WASI_RIGHT_FD_READ 0 = .ok fe := by
      simp [get_fd_entry, hfe, hr]
    rcases hdesc with hdesc | hdesc <;> simp [fd_read, hget, hdesc]
  · intro hr
    have hget : get_fd_entry m fd WASI_RIGHT_FD_WRITE 0 = .error .ENOTCAPABLE := by
      simp [get_fd_entry, hfe, hr]
    simp [fd_write, hget]
  · intro hr
    have hget : get_fd_entry m fd WASI_RIGHT_FD_READ 0 = .error .ENOTCAPABLE := by
      simp [get_fd_entry, hfe, hr]
    simp [fd_read, hget]

/-- Witness for claim C9: a stdin-backed entry holding fd_write is refused
with bad-handle by `fd_write` and no OS write happens. -/
theorem stdio_bad_handle_witness :
    fd_write
        [(0, ⟨⟨WASI_FILETYPE_CHARACTER_DEVICE, .Stdin, true⟩, 64, 0, none⟩)]
        0 [] (fun _ _ => .ok 0)
      = (.error .EBADF, false) :=
  (stdio_bad_handle
      [(0, ⟨⟨WASI_FILETYPE_CHARACTER_DEVICE, .Stdin, true⟩, 64, 0, none⟩)]
      0 [] (fun _ _ => .ok 0) (fun _ _ => .ok 0)
      ⟨⟨WASI_FILETYPE_CHARACTER_DEVICE, .Stdin, true⟩, 64, 0, none⟩
      (by decide)).1 rfl (by decide)

/-- Claim C9 (counterexample): with a stdin-backed entry whose rights were
narrowed to the empty mask (reachable through fd_fdstat_set_rights), the
rights check fires first and `fd_write` returns not-capable, not
bad-handle. -/
theorem fd_write_stdin_not_capable :
    fd_write
        [(0, ⟨⟨WASI_FILETYPE_CHARACTER_DEVICE, .Stdin, true⟩, 0, 0, none⟩)]
        0 [] (fun _ _ => .ok 0)
      = (.error .ENOTCAPABLE, false)
    ∧ Errno.ENOTCAPABLE ≠ Errno.EBADF := by
  exact ⟨rfl, by decide⟩

lemma writeBytes_size (mem : GuestMem) (base len : Nat) (ws : List (Nat × Nat)) :
    (writeBytes mem base len ws).size = mem.size := by
  induction ws generalizing mem with
  | nil => rfl
  | cons w ws ih =>
    simp only [writeBytes]
    rw [ih]
    split <;> rfl

lemma writeBytes_data_outside (mem : GuestMem) (base len : Nat)
    (ws : List (Nat × Nat)) (a : Nat) (ha : a < base ∨ base + len ≤ a) :
    (writeBytes mem base len ws).data a = mem.data a := by
  induction ws generalizing mem with
  | nil => rfl
  | cons w ws ih =>
    simp only [writeBytes]
    rw [ih]
    by_cases hw : w.1 < len
    · rw [if_pos hw]
      show (if a = base + w.1 then w.2 % 256 else mem.data a) = mem.data a
      rw [if_neg (by omega)]
    · rw [if_neg hw]

lemma enc_usize_zero (mem : GuestMem) (ptr : Nat) (h : ptr + 4 ≤ mem.size) :
    ∃ mem1, enc_usize_byref mem ptr 0 = .ok mem1 ∧ mem1.size = mem.size ∧
      read_usize mem1 ptr = 0 ∧
      ∀ a, a < ptr ∨ ptr + 4 ≤ a → mem1.data a = mem.data a := by
  refine ⟨⟨mem.size, fun a =>
      if ptr ≤ a ∧ a < ptr + 4 then 0 / 256 ^ (a - ptr) % 256 else mem.data a⟩,
    ?_, rfl, ?_, ?_⟩
  · unfold enc_usize_byref
    rw [if_pos h]
  · unfold read_usize
    show (if ptr ≤ ptr ∧ ptr < ptr + 4 then 0 / 256 ^ (ptr - ptr) % 256
        else mem.data ptr)
      + 256 * (if ptr ≤ ptr + 1 ∧ ptr + 1 < ptr + 4 then
          0 / 256 ^ (ptr + 1 - ptr) % 256 else mem.data (ptr + 1))
      + 65536 * (if ptr ≤ ptr + 2 ∧ ptr + 2 < ptr + 4 then
          0 / 256 ^ (ptr + 2 - ptr) % 256 else mem.data (ptr + 2))
      + 16777216 * (if ptr ≤ ptr + 3 ∧ ptr + 3 < ptr + 4 then
          0 / 256 ^ (ptr + 3 - ptr) % 256 else mem.data (ptr + 3)) = 0
    rw [if_pos (by omega), if_pos (by omega), if_pos (by omega),
      if_pos (by omega)]
    simp
  · intro a ha
    show (if ptr ≤ a ∧ a < ptr + 4 then 0 / 256 ^ (a - ptr) % 256
        else mem.data a) = mem.data a
    rw [if_neg (by omega)]

/-- Claim C10: `fd_readdir` and `path_readlink` write 0 to the guest's
used-count location before the rights check, the decoding of the
remaining arguments, and the underlying operation: a failing bounds check
on that first write preempts everything (the result does not depend on
the descriptor table), and once the first write has succeeded, every
failing outcome leaves 0 as the guest-visible used count (the destination
buffer being a region disjoint from the used-count word). -/
theorem readdir_readlink_zero_used_count
    (mem : GuestMem) (m : FdMap) (fd buf buf_len buf_used : Nat)
    (implWrites : List (Nat × Nat)) (implResult : Except Errno Nat)
    (pathDecode : Except Errno Unit)
    (implWrites2 : List (Nat × Nat)) (implResult2 : Except Errno Nat) :
    (buf_used + 4 ≤ mem.size →
      (buf_used + 4 ≤ buf ∨ buf + buf_len ≤ buf_used) →
      (fd_readdir_host mem m fd buf buf_len buf_used implWrites implResult).1
          ≠ .ESUCCESS →
      read_usize
        (fd_readdir_host mem m fd buf buf_len buf_used implWrites
          implResult).2 buf_used = 0)
    ∧ (buf_used + 4 ≤ mem.size →
      (buf_used + 4 ≤ buf ∨ buf + buf_len ≤ buf_used) →
      (path_readlink_host mem buf buf_len buf_used pathDecode implWrites2
          implResult2).1 ≠ .ESUCCESS →
      read_usize
        (path_readlink_host mem buf buf_len buf_used pathDecode implWrites2
          implResult2).2 buf_used = 0)
    ∧ (mem.size < buf_used + 4 →
      (∀ m2 : FdMap, fd_readdir_host mem m2 fd buf buf_len buf_used implWrites
          implResult = (.EFAULT, mem))
      ∧ path_readlink_host mem buf buf_len buf_used pathDecode implWrites2
          implResult2 = (.EFAULT, mem)) := by
  refine ⟨?_, ?_, ?_⟩
  · intro hb hd hfail
    obtain ⟨mem1, henc, hsz, hrd, houts⟩ := enc_usize_zero mem buf_used hb
    have hread2 : read_usize (writeBytes mem1 buf buf_len implWrites) buf_used
        = read_usize mem1 buf_used := by
      unfold read_usize
      rw [writeBytes_data_outside mem1 buf buf_len implWrites buf_used
          (by omega),
        writeBytes_data_outside mem1 buf buf_len implWrites (buf_used + 1)
          (by omega),
        writeBytes_data_outside mem1 buf buf_len implWrites (buf_used + 2)
          (by omega),
        writeBytes_data_outside mem1 buf buf_len implWrites (buf_used + 3)
          (by omega)]
    have key : (fd_readdir_host mem m fd buf buf_len buf_used implWrites
          implResult).1 = .ESUCCESS
        ∨ read_usize (fd_readdir_host mem m fd buf buf_len buf_used implWrites
          implResult).2 buf_used = 0 := by
      unfold fd_readdir_host
      simp only [henc]
      split
      · exact Or.inr hrd
      · split
        · exact Or.inr hrd
        · split
          · exact Or.inr (hread2.trans hrd)
          · split
            · exact Or.inr (hread2.trans hrd)
            · exact Or.inl rfl
    rcases key with hk | hk
    · exact absurd hk hfail
    · exact hk
  · intro hb hd hfail
    obtain ⟨mem1, henc, hsz, hrd, houts⟩ := enc_usize_zero mem buf_used hb
    have hread2 : read_usize (writeBytes mem1 buf buf_len implWrites2) buf_used
        = read_usize mem1 buf_used := by
      unfold read_usize
      rw [writeBytes_data_outside mem1 buf buf_len implWrites2 buf_used
          (by omega),
        writeBytes_data_outside mem1 buf buf_len implWrites2 (buf_used + 1)
          (by omega),
        writeBytes_data_outside mem1 buf buf_len implWrites2 (buf_used + 2)
          (by omega),
        writeBytes_data_outside mem1 buf buf_len implWrites2 (buf_used + 3)
          (by omega)]
    have key : (path_readlink_host mem buf buf_len buf_used pathDecode
          implWrites2 implResult2).1 = .ESUCCESS
        ∨ read_usize (path_readlink_host mem buf buf_len buf_used pathDecode
          implWrites2 implResult2).2 buf_used = 0 := by
      unfold path_readlink_host
      simp only [henc]
      split
      · exact Or.inr hrd
      · split
        · exact Or.inr hrd
        · split
          · exact Or.inr (hread2.trans hrd)
          · split
            · exact Or.inr (hread2.trans hrd)
            · exact Or.inl rfl
    rcases key with hk | hk
    · exact absurd hk hfail
    · exact hk
  · intro hsz
    have henc : enc_usize_byref mem buf_used 0 = .error .EFAULT := by
      unfold enc_usize_byref
      rw [if_neg (by omega)]
    constructor
    · intro m2
      unfold fd_readdir_host
      rw [henc]
    · unfold path_readlink_host
      rw [henc]

/-- Witness for claim C10: with a 16-byte memory holding the byte 1
everywhere, an absent handle makes `fd_readdir` fail after the initial
write, and the guest-visible used count at the used-count location is
0. -/
theorem readdir_readlink_zero_used_count_witness :
    read_usize
      (fd_readdir_host ⟨16, fun _ => 1⟩ [] 3 8 4 0 [] (.error Errno.EIO)).2 0 = 0 :=
  (readdir_readlink_zero_used_count ⟨16, fun _ => 1⟩ [] 3 8 4 0 []
      (.error Errno.EIO) (.ok ()) [] (.error .ENOENT)).1
    (by norm_num) (Or.inl (by norm_num)) (by decide)

/-- Witness for claim C5: a directory named d with parent p and one OS
entry a: the first two yielded entries carry cookies 1 and 2 and the OS
entry carries cookie 3. -/
theorem fd_readdir_windows_emulated_first_witness :
    ((fd_readdir_windows ⟨"d", 3, 11⟩ ⟨"p", 3, 12⟩ [⟨"a", 4, 13⟩] 0).take 2
      = [⟨"d", 3, 11, 1⟩, ⟨"p", 3, 12, 2⟩])
    ∧ 3 ≤ (⟨"a", 4, 13, 3⟩ : WinDirent).cookie :=
  ⟨(fd_readdir_windows_emulated_first ⟨"d", 3, 11⟩ ⟨"p", 3, 12⟩
      [⟨"a", 4, 13⟩]).1,
   (fd_readdir_windows_emulated_first ⟨"d", 3, 11⟩ ⟨"p", 3, 12⟩
      [⟨"a", 4, 13⟩]).2 ⟨"a", 4, 13, 3⟩ (by decide)⟩
